import Mathlib

/-!
Shallow embedding of the poker-server game-room state machine
(`server.js` of the repository) and verification of the frozen claims.

Modelling conventions:
* JS numbers holding chip amounts, bets, pot and blinds are modelled as `ℚ`:
  every operation the engine performs on them (`+`, `-`, `Math.min`, `/ 2`,
  comparisons) is exact on IEEE doubles in the engine's range, and `ℚ`
  reproduces it exactly (in particular `bigBlind / 2` is NOT truncated in JS).
* The global `gameRooms` map is an association list updated at its first
  matching key; the `users` map keeps, per user id, the chip balance
  (its other fields — password, socketId — play no role in any claim).
* `createDeck()` returns a randomly shuffled deck; transition functions that
  consume a fresh deck take the shuffled deck as an explicit parameter
  (`baseDeck` below is the pre-shuffle order, one possible value).
* `Math.random()`-based winner selection in `endGame` is modelled by an
  explicit `pick` parameter (the index the random draw would produce).
* The `nextPlayer`/`nextPhase` mutual recursion is driven by an explicit
  fuel parameter; a full hand needs at most 4 phase steps, so any fuel ≥ 4
  reproduces the source behaviour on states reachable during a hand.
-/

/- Batteries marks the `Rat` field operations `@[irreducible]`, which blocks
`decide` from evaluating concrete chip arithmetic; restore the default
transparency (the kernel ignores reducibility attributes, so nothing about
the trusted checking changes). -/
set_option allowUnsafeReducibility true in
attribute [semireducible] Rat.add Rat.sub Rat.mul Rat.inv Rat.div

namespace Poker

/-- A playing card as built by `createDeck` (value, suit, derived color). -/
structure Card where
  value : String
  suit : String
  color : String
deriving DecidableEq, Repr

/-- Game phase, `room.phase` in the source. -/
inductive Phase where
  | waiting
  | preflop
  | flop
  | turn
  | river
  | showdown
deriving DecidableEq, Repr

/-- A seated player record, as pushed by the `join-room` handler. -/
structure Player where
  userId : String
  socketId : String
  chips : ℚ
  cards : List Card
  bet : ℚ
  folded : Bool
  allIn : Bool
deriving DecidableEq, Repr

/-- A game room, as built by `createGameRoom`. -/
structure Room where
  id : String
  players : List Player
  deck : List Card
  communityCards : List Card
  pot : ℚ
  currentBet : ℚ
  bigBlind : ℚ
  smallBlind : ℚ
  dealerIndex : Nat
  currentPlayerIndex : Int
  phase : Phase
  maxPlayers : Nat
deriving DecidableEq, Repr

/-- The external identity store (`users` map), reduced to the chip balances
the engine reads and writes. -/
structure UserRec where
  id : String
  chips : ℚ
deriving DecidableEq, Repr

abbrev Users := List UserRec

/-- `users.get(uid)` (first record with that id). -/
def getUser (us : Users) (uid : String) : Option UserRec :=
  us.find? (fun u => u.id = uid)

/-- `users.get(uid).chips = c` on the record found by key, modelling the JS
in-place mutation of the fetched user object; a no-op when absent (the
source would have crashed before reaching the write in that case, except in
the guarded `if (user)` sites where a missing user is skipped). -/
def setUserChips (us : Users) (uid : String) (c : ℚ) : Users :=
  us.map (fun u => if u.id = uid then { u with chips := c } else u)

/-- Balance visible in the external store. -/
def getUserChips (us : Users) (uid : String) : Option ℚ :=
  (getUser us uid).map (fun u => u.chips)

/-- Suits in `createDeck`. -/
def deckSuits : List String := ["♠", "♥", "♦", "♣"]

/-- Values in `createDeck`. -/
def deckValues : List String :=
  ["A", "2", "3", "4", "5", "6", "7", "8", "9", "10", "J", "Q", "K"]

/-- The 52-card deck built by `createDeck` before `shuffleDeck` permutes it;
the shuffled result is an arbitrary permutation, passed to the transition
functions as a parameter. -/
def baseDeck : List Card :=
  deckSuits.flatMap (fun s =>
    deckValues.map (fun v =>
      { value := v, suit := s,
        color := if s = "♥" ∨ s = "♦" then "red" else "black" }))

/-- `createGameRoom(roomId, bigBlind)`. -/
def createGameRoom (roomId : String) (bigBlind : ℚ) : Room :=
  { id := roomId
    players := []
    deck := []
    communityCards := []
    pot := 0
    currentBet := 0
    bigBlind := bigBlind
    smallBlind := bigBlind / 2
    dealerIndex := 0
    currentPlayerIndex := -1
    phase := Phase.waiting
    maxPlayers := 6 }

/-- `deck.pop()`: remove and return the last element of the array. -/
def popLast (d : List Card) : Option (Card × List Card) :=
  match d.getLast? with
  | some c => some (c, d.dropLast)
  | none => none

/-- The per-player body of the `room.players.forEach` loop in `startNewGame`:
reset the hand state, then post the small or big blind when the seat index
matches. -/
def blindStep (sb bb : ℚ) (sbIdx bbIdx i : Nat) (p : Player) : Player :=
  let p0 : Player := { p with cards := [], bet := 0, folded := false, allIn := false }
  if i = sbIdx then { p0 with bet := sb, chips := p0.chips - sb }
  else if i = bbIdx then { p0 with bet := bb, chips := p0.chips - bb }
  else p0

/-- The pot contribution of the seat at index `i` in the blind-posting loop. -/
def blindAdd (sb bb : ℚ) (sbIdx bbIdx i : Nat) : ℚ :=
  if i = sbIdx then sb else if i = bbIdx then bb else 0

/-- The `room.players.forEach` loop of `startNewGame`: apply `blindStep` to
every seat, accumulating the pot contributions and syncing the external
store for the two blind posters. -/
def postBlindsAux (sb bb : ℚ) (sbIdx bbIdx : Nat) :
    Nat → List Player → Users → List Player × ℚ × Users
  | _, [], us => ([], 0, us)
  | i, p :: ps, us =>
    let p1 := blindStep sb bb sbIdx bbIdx i p
    let us1 := if i = sbIdx ∨ i = bbIdx then setUserChips us p1.userId p1.chips else us
    let rest := postBlindsAux sb bb sbIdx bbIdx (i + 1) ps us1
    (p1 :: rest.1, blindAdd sb bb sbIdx bbIdx i + rest.2.1, rest.2.2)

/-- One pass of the hole-card dealing loop: each player in order receives
`deck.pop()` when the deck is non-empty. -/
def dealPass : List Player → List Card → List Player × List Card
  | [], d => ([], d)
  | p :: ps, d =>
    match popLast d with
    | some (c, d') =>
      let rest := dealPass ps d'
      ({ p with cards := p.cards ++ [c] } :: rest.1, rest.2)
    | none =>
      let rest := dealPass ps d
      (p :: rest.1, rest.2)

/-- `startNewGame(roomId)` on the room found in the map, with the freshly
shuffled deck passed explicitly. Returns the room unchanged when fewer than
two players are seated (the `room.players.length < 2` guard). -/
def startNewGameR (deck : List Card) (room : Room) (users : Users) : Room × Users :=
  if room.players.length < 2 then (room, users)
  else
    let N := room.players.length
    let sbIdx := (room.dealerIndex + 1) % N
    let bbIdx := (room.dealerIndex + 2) % N
    let pb := postBlindsAux room.smallBlind room.bigBlind sbIdx bbIdx 0 room.players users
    let d1 := dealPass pb.1 deck
    let d2 := dealPass d1.1 d1.2
    ({ room with
        deck := d2.2
        communityCards := []
        pot := 0 + pb.2.1
        currentBet := room.bigBlind
        phase := Phase.preflop
        players := d2.1
        currentPlayerIndex := ((room.dealerIndex + 3) % N : Nat) },
     pb.2.2)

/-- The eligibility test of the `nextPlayer` scan:
`!player.folded && !player.allIn && player.chips > 0`. -/
def eligibleB (p : Player) : Bool :=
  !p.folded && !p.allIn && decide (0 < p.chips)

/-- The `while (attempts < room.players.length)` scan of `nextPlayer`,
starting at `idx` with `cnt` attempts remaining. -/
def scanNext (ps : List Player) : Nat → Nat → Option Nat
  | _, 0 => none
  | idx, cnt + 1 =>
    match ps.get? idx with
    | some p =>
      if eligibleB p then some idx
      else scanNext ps ((idx + 1) % ps.length) cnt
    | none => none

/-- The scan of `nextPlayer` applied to a room: start index
`(room.currentPlayerIndex + 1) % room.players.length`, at most
`room.players.length` attempts. -/
def nextPlayerScan (r : Room) : Option Nat :=
  scanNext r.players
    (((r.currentPlayerIndex + 1) % (r.players.length : Int)).toNat)
    r.players.length

/-- The community-card dealing loop of `nextPhase`: `n` iterations of
"if the deck is non-empty, push `deck.pop()`". -/
def dealCommunity : Nat → List Card → List Card → List Card × List Card
  | 0, comm, deck => (comm, deck)
  | n + 1, comm, deck =>
    match popLast deck with
    | some (c, deck') => dealCommunity n (comm ++ [c]) deck'
    | none => dealCommunity n comm deck

/-- Index (in the full seat list) of the `k`-th non-folded player; this is
how the in-place mutation of `activePlayers[k]` in `endGame` lands back in
`room.players`. -/
def nthActiveIdx : List Player → Nat → Option Nat
  | [], _ => none
  | p :: ps, k =>
    if p.folded then (nthActiveIdx ps k).map (· + 1)
    else if k = 0 then some 0
    else (nthActiveIdx ps (k - 1)).map (· + 1)

/-- `endGame(roomId)`: award the pot to `activePlayers[0]` when exactly one
non-folded player remains, else to `activePlayers[pick]` (`pick` models
`Math.floor(Math.random() * activePlayers.length)`); sync the external
store when the winner's user record exists; reset the phase to `waiting`
and advance the dealer. When no non-folded player exists the source crashes
on `winner.chips`; the model returns the state unchanged (unreachable in
the claims). -/
def endGameF (r : Room) (users : Users) (pick : Nat) : Room × Users :=
  let active := r.players.filter (fun p => !p.folded)
  let k := if active.length = 1 then 0 else pick
  match nthActiveIdx r.players k with
  | none => (r, users)
  | some i =>
    match r.players.get? i with
    | none => (r, users)
    | some w =>
      let w' : Player := { w with chips := w.chips + r.pot }
      let users' :=
        match getUser users w.userId with
        | some _ => setUserChips users w.userId w'.chips
        | none => users
      ({ r with
          players := r.players.set i w'
          phase := Phase.waiting
          dealerIndex := (r.dealerIndex + 1) % r.players.length },
       users')

/-- The per-player body of the bet-reset loop at the top of `nextPhase`. -/
def resetBet (p : Player) : Player := { p with bet := 0 }

/-- `nextPhase(roomId)`, fuel-driven: reset all round bets and the current
bet, then advance the phase, dealing community cards; the non-river branches
set `currentPlayerIndex := dealerIndex` and re-run the `nextPlayer` scan
(recursing into `nextPhase` again when nobody is eligible); the river branch
sets `showdown` and hands off to `endGame`. Fuel 0 stops the recursion
(the source would loop forever / overflow there; unreachable during a hand). -/
def nextPhaseF : Nat → Room → Users → Nat → Room × Users
  | 0, r, users, _ => (r, users)
  | fuel + 1, r, users, pick =>
    let r1 := { r with
      players := r.players.map resetBet,
      currentBet := 0 }
    match r1.phase with
    | Phase.preflop =>
      let cd := dealCommunity 3 r1.communityCards r1.deck
      let r2 := { r1 with phase := Phase.flop, communityCards := cd.1, deck := cd.2,
                          currentPlayerIndex := (r1.dealerIndex : Int) }
      match nextPlayerScan r2 with
      | some idx => ({ r2 with currentPlayerIndex := (idx : Int) }, users)
      | none => nextPhaseF fuel r2 users pick
    | Phase.flop =>
      let cd := dealCommunity 1 r1.communityCards r1.deck
      let r2 := { r1 with phase := Phase.turn, communityCards := cd.1, deck := cd.2,
                          currentPlayerIndex := (r1.dealerIndex : Int) }
      match nextPlayerScan r2 with
      | some idx => ({ r2 with currentPlayerIndex := (idx : Int) }, users)
      | none => nextPhaseF fuel r2 users pick
    | Phase.turn =>
      let cd := dealCommunity 1 r1.communityCards r1.deck
      let r2 := { r1 with phase := Phase.river, communityCards := cd.1, deck := cd.2,
                          currentPlayerIndex := (r1.dealerIndex : Int) }
      match nextPlayerScan r2 with
      | some idx => ({ r2 with currentPlayerIndex := (idx : Int) }, users)
      | none => nextPhaseF fuel r2 users pick
    | Phase.river =>
      endGameF { r1 with phase := Phase.showdown } users pick
    | _ =>
      let r2 := { r1 with currentPlayerIndex := (r1.dealerIndex : Int) }
      match nextPlayerScan r2 with
      | some idx => ({ r2 with currentPlayerIndex := (idx : Int) }, users)
      | none => nextPhaseF fuel r2 users pick

/-- `nextPlayer(roomId)`: move to the first eligible seat found by the scan,
or hand off to `nextPhase`. -/
def nextPlayerF (fuel : Nat) (r : Room) (users : Users) (pick : Nat) : Room × Users :=
  match nextPlayerScan r with
  | some idx => ({ r with currentPlayerIndex := (idx : Int) }, users)
  | none => nextPhaseF fuel r users pick

/-- The inbound player action. -/
inductive Action where
  | fold
  | call
  | raise
  | check
  | allin
deriving DecidableEq, Repr

/-- `parseInt(amount) || room.bigBlind`: the parsed raise amount, with
`none` (absent / NaN) and `0` falling back to the big blind. -/
def raiseAmountOf (r : Room) (amount : Option Int) : ℚ :=
  match amount with
  | some a => if a = 0 then r.bigBlind else (a : ℚ)
  | none => r.bigBlind

/-- The `switch (action)` body of the `player-action` handler, acting on
`room.players[playerIndex]` and syncing the external store by
`socket.userId`. `amount` is the parsed raise amount; `parseInt(amount) ||
room.bigBlind` maps `none` (absent / NaN) and `0` to the big blind. -/
def applySwitch (r : Room) (users : Users) (playerIndex : Nat)
    (socketUserId : String) (act : Action) (amount : Option Int) : Room × Users :=
  match r.players.get? playerIndex with
  | none => (r, users)
  | some player =>
    match act with
    | Action.fold =>
      ({ r with players := r.players.set playerIndex { player with folded := true } },
       users)
    | Action.call =>
      let callAmount := r.currentBet - player.bet
      let actualCallAmount := min callAmount player.chips
      let p' := { player with bet := player.bet + actualCallAmount,
                              chips := player.chips - actualCallAmount }
      ({ r with players := r.players.set playerIndex p',
                pot := r.pot + actualCallAmount },
       setUserChips users socketUserId p'.chips)
    | Action.raise =>
      let raiseAmount : ℚ := raiseAmountOf r amount
      let totalBet := r.currentBet + raiseAmount
      let playerRaise := totalBet - player.bet
      let actualRaise := min playerRaise player.chips
      let p' := { player with bet := player.bet + actualRaise,
                              chips := player.chips - actualRaise }
      ({ r with players := r.players.set playerIndex p',
                pot := r.pot + actualRaise,
                currentBet := p'.bet },
       setUserChips users socketUserId p'.chips)
    | Action.check =>
      if r.currentBet > player.bet then
        let callAmount := r.currentBet - player.bet
        let actualCallAmount := min callAmount player.chips
        let p' := { player with bet := player.bet + actualCallAmount,
                                chips := player.chips - actualCallAmount }
        ({ r with players := r.players.set playerIndex p',
                  pot := r.pot + actualCallAmount },
         setUserChips users socketUserId p'.chips)
      else (r, users)
    | Action.allin =>
      let p' := { player with bet := player.bet + player.chips,
                              chips := 0, allIn := true }
      ({ r with players := r.players.set playerIndex p',
                pot := r.pot + player.chips,
                currentBet := if p'.bet > r.currentBet then p'.bet else r.currentBet },
       setUserChips users socketUserId 0)

/-- The `player-action` handler on a room known to exist: the out-of-turn
guard (`playerIndex === -1 || playerIndex !== room.currentPlayerIndex`
returns without mutating anything), then the action switch, then
`nextPlayer(roomId)`. -/
def playerActionR (r : Room) (users : Users) (socketId socketUserId : String)
    (act : Action) (amount : Option Int) (pick : Nat) (fuel : Nat) : Room × Users :=
  match r.players.findIdx? (fun p => p.socketId = socketId) with
  | none => (r, users)
  | some playerIndex =>
    if (playerIndex : Int) ≠ r.currentPlayerIndex then (r, users)
    else
      let s := applySwitch r users playerIndex socketUserId act amount
      nextPlayerF fuel s.1 s.2 pick

/-- `gameRooms.get(roomId)`. -/
def findRoom (rooms : List (String × Room)) (roomId : String) : Option Room :=
  (rooms.find? (fun rr => rr.1 = roomId)).map (fun rr => rr.2)

/-- `gameRooms` write-back: the room object found under `roomId` is mutated
in place, i.e. the first entry with that key now holds the new value. -/
def setRoom : List (String × Room) → String → Room → List (String × Room)
  | [], k, v => [(k, v)]
  | (k', v') :: rest, k, v =>
    if k' = k then (k', v) :: rest else (k', v') :: setRoom rest k v

/-- The full `player-action` handler: `socket.currentRoom` null-check, room
lookup, then `playerActionR`. -/
def playerActionH (rooms : List (String × Room)) (users : Users)
    (currentRoom : Option String) (socketId socketUserId : String)
    (act : Action) (amount : Option Int) (pick fuel : Nat) :
    List (String × Room) × Users :=
  match currentRoom with
  | none => (rooms, users)
  | some roomId =>
    match findRoom rooms roomId with
    | none => (rooms, users)
    | some room =>
      let s := playerActionR room users socketId socketUserId act amount pick fuel
      (setRoom rooms roomId s.1, s.2)

/-- One inbound `player-action` request, as attributed to a socket. -/
structure ActionReq where
  socketId : String
  socketUserId : String
  action : Action
  amount : Option Int
  pick : Nat
  fuel : Nat
deriving DecidableEq, Repr

/-- Apply one action request to a room and the external store. -/
def stepReq (s : Room × Users) (q : ActionReq) : Room × Users :=
  playerActionR s.1 s.2 q.socketId q.socketUserId q.action q.amount q.pick q.fuel

/-- Apply a sequence of action requests in order. -/
def runReqs (s : Room × Users) (qs : List ActionReq) : Room × Users :=
  qs.foldl stepReq s

/-- Outcome reported to the requester by the `join-room` handler. -/
inductive JoinResult where
  | errNotAuth
  | errChips
  | errAlready
  | errFull
  | joined
deriving DecidableEq, Repr

/-- The `join-room` handler: authentication check, minimum-buy-in check
against `bigBlind * 10` where `bigBlind` comes from the REQUEST data,
room creation on first use, already-seated and room-full checks, then the
push of the new player record. -/
def joinRoom (rooms : List (String × Room)) (users : Users)
    (socketUserId socketId : String) (roomId : String) (bigBlind : ℚ) :
    JoinResult × List (String × Room) :=
  match getUser users socketUserId with
  | none => (JoinResult.errNotAuth, rooms)
  | some user =>
    if user.chips < bigBlind * 10 then (JoinResult.errChips, rooms)
    else
      let rooms1 :=
        if (findRoom rooms roomId).isNone then
          setRoom rooms roomId (createGameRoom roomId bigBlind)
        else rooms
      match findRoom rooms1 roomId with
      | none => (JoinResult.errNotAuth, rooms1)
      | some room =>
        if (room.players.find? (fun p => p.userId = socketUserId)).isSome then
          (JoinResult.errAlready, rooms1)
        else if room.maxPlayers ≤ room.players.length then
          (JoinResult.errFull, rooms1)
        else
          let player : Player :=
            { userId := socketUserId, socketId := socketId, chips := user.chips,
              cards := [], bet := 0, folded := false, allIn := false }
          (JoinResult.joined,
           setRoom rooms1 roomId { room with players := room.players ++ [player] })

/-! ### Concrete fixtures used by the scenario parts of the claims -/

/-- Seated player A with a fresh 10000-chip stack. -/
def playerA : Player :=
  { userId := "A", socketId := "sA", chips := 10000, cards := [],
    bet := 0, folded := false, allIn := false }

/-- Seated player B. -/
def playerB : Player := { playerA with userId := "B", socketId := "sB" }

/-- Seated player C. -/
def playerC : Player := { playerA with userId := "C", socketId := "sC" }

/-- External store for A, B, C. -/
def users3 : Users := [⟨"A", 10000⟩, ⟨"B", 10000⟩, ⟨"C", 10000⟩]

/-- External store for A, B. -/
def users2 : Users := [⟨"A", 10000⟩, ⟨"B", 10000⟩]

/-- Room with bigBlind 100 and players A (dealer), B, C seated in order. -/
def room3 : Room := { createGameRoom "r1" 100 with players := [playerA, playerB, playerC] }

/-- Two-player room with bigBlind 100: A (dealer) and B. -/
def room2 : Room := { createGameRoom "r1" 100 with players := [playerA, playerB] }

/-- Room like `room3` but A is short-stacked with 10 chips. -/
def roomShort : Room :=
  { createGameRoom "r1" 100 with
      players := [{ playerA with chips := 10 }, playerB, playerC] }

/-- An existing rooms map holding one room with bigBlind 100. -/
def roomsBig : List (String × Room) := [("big", createGameRoom "big" 100)]

/-- Store for the join scenarios: u holds 500 chips, v holds 1500. -/
def usersJoin : Users := [⟨"u", 500⟩, ⟨"v", 1500⟩]

/-- A settlement-ready room: A active, B folded, a 150-chip pot. -/
def roomEnd : Room :=
  { createGameRoom "r1" 100 with
      players := [playerA, { playerB with folded := true }],
      pot := 150,
      phase := Phase.river }

/-- Turn-engine scenario state: players [A (folded), B (all-in), C (active)],
current player A. -/
def roomScan : Room :=
  { createGameRoom "r1" 100 with
      players := [{ playerA with folded := true }, { playerB with allIn := true }, playerC],
      currentPlayerIndex := 0,
      phase := Phase.preflop }

/-! ### Derived quantities and helper lemmas -/

/-- Total chips held by the seated players. -/
def chipSum (ps : List Player) : ℚ := (ps.map Player.chips).sum

/-- The conserved quantity of the chip-conservation claim:
`room.pot + Σ player.chips`. -/
def potChips (r : Room) : ℚ := r.pot + chipSum r.players

/-- Strip the hole cards; dealing changes nothing else about a player. -/
def stripCards (p : Player) : Player := { p with cards := [] }

/-- The betting invariant of claim C4: no seated player's per-round bet
exceeds the room's current bet. -/
def betsLeCurrent (r : Room) : Prop :=
  ∀ p ∈ r.players, p.bet ≤ r.currentBet

instance betsLeCurrentDecidable (r : Room) : Decidable (betsLeCurrent r) :=
  inferInstanceAs (Decidable (∀ p ∈ r.players, p.bet ≤ r.currentBet))

/-- The phase/community-card correspondence of claim C8, amended to what the
code maintains: during a hand the board has 0/3/4/5/5 cards in
preflop/flop/turn/river/showdown (with enough deck left to finish the
board), while in `waiting` the board holds either 0 cards (fresh room) or
the 5 cards left over from the settled hand. -/
def phaseCommInv (r : Room) : Prop :=
  match r.phase with
  | Phase.waiting => r.communityCards.length = 0 ∨ r.communityCards.length = 5
  | Phase.preflop => r.communityCards.length = 0 ∧ 5 ≤ r.deck.length
  | Phase.flop => r.communityCards.length = 3 ∧ 2 ≤ r.deck.length
  | Phase.turn => r.communityCards.length = 4 ∧ 1 ≤ r.deck.length
  | Phase.river => r.communityCards.length = 5
  | Phase.showdown => r.communityCards.length = 5

instance phaseCommInvDecidable (r : Room) : Decidable (phaseCommInv r) := by
  unfold phaseCommInv
  cases r.phase <;> infer_instance

/-- Eligibility of the seat at index `i` (false out of range). -/
def eligAt (ps : List Player) (i : Nat) : Bool :=
  match ps.get? i with
  | some p => eligibleB p
  | none => false

/-- Specification-side form of the turn advance, following the spec's words:
the first seat, scanning from `s` and wrapping at most once around all N
seats, whose player is eligible. -/
def firstEligibleFrom (ps : List Player) (s : Nat) : Option Nat :=
  ((List.range ps.length).map (fun k => (s + k) % ps.length)).find?
    (fun i => eligAt ps i)

theorem chipSum_cons (p : Player) (ps : List Player) :
    chipSum (p :: ps) = p.chips + chipSum ps := by
  simp [chipSum]

theorem chipSum_set (ps : List Player) (i : Nat) (p p' : Player)
    (h : ps.get? i = some p) :
    chipSum (ps.set i p') = chipSum ps - p.chips + p'.chips := by
  induction ps generalizing i with
  | nil => simp at h
  | cons q qs ih =>
    cases i with
    | zero =>
      simp only [List.get?] at h
      cases h
      simp only [List.set]
      rw [chipSum_cons, chipSum_cons]
      ring
    | succ n =>
      simp only [List.get?] at h
      simp only [List.set]
      rw [chipSum_cons, chipSum_cons, ih n h]
      ring

theorem chipSum_resetBet (ps : List Player) :
    chipSum (ps.map resetBet) = chipSum ps := by
  induction ps with
  | nil => rfl
  | cons p ps ih => simp only [List.map, chipSum_cons, ih]; rfl

theorem blindStep_chips (sb bb : ℚ) (s1 s2 i : Nat) (p : Player) :
    (blindStep sb bb s1 s2 i p).chips = p.chips - blindAdd sb bb s1 s2 i := by
  unfold blindStep blindAdd
  split_ifs <;> simp

theorem postBlindsAux_length (sb bb : ℚ) (s1 s2 : Nat) :
    ∀ (i : Nat) (ps : List Player) (us : Users),
      (postBlindsAux sb bb s1 s2 i ps us).1.length = ps.length := by
  intro i ps
  induction ps generalizing i with
  | nil => intro us; rfl
  | cons p ps ih => intro us; simp [postBlindsAux, ih]

theorem postBlindsAux_get? (sb bb : ℚ) (s1 s2 : Nat) :
    ∀ (i k : Nat) (ps : List Player) (us : Users),
      (postBlindsAux sb bb s1 s2 i ps us).1.get? k =
        (ps.get? k).map (fun p => blindStep sb bb s1 s2 (i + k) p) := by
  intro i k ps
  induction ps generalizing i k with
  | nil => intro us; simp [postBlindsAux]
  | cons p ps ih =>
    intro us
    cases k with
    | zero => simp [postBlindsAux]
    | succ n =>
      simp only [postBlindsAux, List.get?]
      rw [ih (i + 1) n]
      have : i + 1 + n = i + (n + 1) := by omega
      rw [this]

theorem postBlindsAux_chips (sb bb : ℚ) (s1 s2 : Nat) :
    ∀ (i : Nat) (ps : List Player) (us : Users),
      (postBlindsAux sb bb s1 s2 i ps us).2.1 +
        chipSum (postBlindsAux sb bb s1 s2 i ps us).1 = chipSum ps := by
  intro i ps
  induction ps generalizing i with
  | nil => intro us; simp [postBlindsAux, chipSum]
  | cons p ps ih =>
    intro us
    simp only [postBlindsAux, chipSum_cons, blindStep_chips]
    have h := ih (i + 1)
      (if i = s1 ∨ i = s2 then
        setUserChips us (blindStep sb bb s1 s2 i p).userId
          (blindStep sb bb s1 s2 i p).chips
       else us)
    have : (blindStep sb bb s1 s2 i p).chips = p.chips - blindAdd sb bb s1 s2 i :=
      blindStep_chips sb bb s1 s2 i p
    rw [blindStep_chips] at *
    linarith [h]

theorem postBlindsAux_potAdd (sb bb : ℚ) (s1 s2 : Nat) (hne : s1 ≠ s2) :
    ∀ (i : Nat) (ps : List Player) (us : Users),
      (postBlindsAux sb bb s1 s2 i ps us).2.1 =
        (if i ≤ s1 ∧ s1 < i + ps.length then sb else 0) +
        (if i ≤ s2 ∧ s2 < i + ps.length then bb else 0) := by
  intro i ps
  induction ps generalizing i with
  | nil =>
    intro us
    simp only [postBlindsAux, List.length_nil]
    split_ifs with h1 h2 <;> first
      | rfl
      | (exfalso; omega)
  | cons p ps ih =>
    intro us
    simp only [postBlindsAux, List.length_cons]
    rw [ih (i + 1)]
    unfold blindAdd
    by_cases h1 : i = s1
    · subst h1
      rw [if_pos rfl]
      split_ifs <;> first
        | (exfalso; omega)
        | ring
    · rw [if_neg h1]
      by_cases h2 : i = s2
      · subst h2
        rw [if_pos rfl]
        split_ifs <;> first
          | (exfalso; omega)
          | ring
      · rw [if_neg h2]
        split_ifs <;> first
          | (exfalso; omega)
          | ring

theorem dealPass_length (ps : List Player) :
    ∀ d : List Card, (dealPass ps d).1.length = ps.length := by
  induction ps with
  | nil => intro d; rfl
  | cons p ps ih =>
    intro d
    simp only [dealPass]
    cases h : popLast d <;> simp [ih]

theorem dealPass_stripCards (ps : List Player) :
    ∀ (d : List Card) (k : Nat),
      ((dealPass ps d).1.get? k).map stripCards = (ps.get? k).map stripCards := by
  induction ps with
  | nil => intro d k; rfl
  | cons p ps ih =>
    intro d k
    simp only [dealPass]
    cases h : popLast d with
    | some cd =>
      cases k with
      | zero => simp [stripCards]
      | succ n => simp only [List.get?]; exact ih cd.2 n
    | none =>
      cases k with
      | zero => simp
      | succ n => simp only [List.get?]; exact ih d n

theorem dealPass_chipSum (ps : List Player) :
    ∀ d : List Card, chipSum (dealPass ps d).1 = chipSum ps := by
  induction ps with
  | nil => intro d; rfl
  | cons p ps ih =>
    intro d
    simp only [dealPass]
    cases h : popLast d <;> simp [chipSum_cons, ih]

theorem exists_get? {α : Type} (l : List α) (i : Nat) (h : i < l.length) :
    ∃ a, l.get? i = some a := by
  cases hg : l.get? i with
  | none => rw [List.get?_eq_none] at hg; omega
  | some a => exact ⟨a, rfl⟩

theorem succ_mod_ne_succ_succ_mod (d N : Nat) (hN : 2 ≤ N) :
    (d + 1) % N ≠ (d + 2) % N := by
  intro h
  have hdvd : N ∣ (d + 2) - (d + 1) :=
    (Nat.modEq_iff_dvd' (by omega)).mp h
  have h1 : (d + 2) - (d + 1) = 1 := by omega
  rw [h1] at hdvd
  have := Nat.le_of_dvd (by omega) hdvd
  omega

theorem blindStep_at_sb (sb bb : ℚ) (s1 s2 : Nat) (p : Player) :
    blindStep sb bb s1 s2 s1 p =
      { p with cards := [], bet := sb, folded := false, allIn := false,
               chips := p.chips - sb } := by
  unfold blindStep
  simp

theorem blindStep_at_bb (sb bb : ℚ) (s1 s2 : Nat) (p : Player) (h : s2 ≠ s1) :
    blindStep sb bb s1 s2 s2 p =
      { p with cards := [], bet := bb, folded := false, allIn := false,
               chips := p.chips - bb } := by
  unfold blindStep
  rw [if_neg h, if_pos rfl]

theorem startNewGameR_def (deck : List Card) (r : Room) (us : Users)
    (h : ¬ r.players.length < 2) :
    startNewGameR deck r us =
      (let pb := postBlindsAux r.smallBlind r.bigBlind
          ((r.dealerIndex + 1) % r.players.length)
          ((r.dealerIndex + 2) % r.players.length) 0 r.players us
       let d1 := dealPass pb.1 deck
       let d2 := dealPass d1.1 d1.2
       ({ r with
           deck := d2.2
           communityCards := []
           pot := 0 + pb.2.1
           currentBet := r.bigBlind
           phase := Phase.preflop
           players := d2.1
           currentPlayerIndex := (((r.dealerIndex + 3) % r.players.length : Nat) : Int) },
        pb.2.2)) := by
  simp only [startNewGameR, if_neg h]

/-! ### Claim C1 -/

set_option maxRecDepth 8000 in
/-- C1: for every room with N ≥ 2 seated players, after `startNewGame` the
phase is preflop, the seat at (dealerIndex+1) mod N has posted the small
blind and the seat at (dealerIndex+2) mod N the big blind, the pot equals
smallBlind + bigBlind, the current bet equals the big blind, and the first
actor is seat (dealerIndex+3) mod N. In particular, with bigBlind 100 and
players A (dealer), B, C seated in that order, B posts 50, C posts 100,
pot = 150, currentBet = 100 and the first actor is A (seat 0). -/
theorem claim_C1_hand_start (deck : List Card) (r : Room) (users : Users)
    (hN : 2 ≤ r.players.length) :
    ((startNewGameR deck r users).1.phase = Phase.preflop ∧
     (∃ p0 p, r.players.get? ((r.dealerIndex + 1) % r.players.length) = some p0 ∧
        (startNewGameR deck r users).1.players.get?
            ((r.dealerIndex + 1) % r.players.length) = some p ∧
        p.bet = r.smallBlind ∧ p.chips = p0.chips - r.smallBlind) ∧
     (∃ p0 p, r.players.get? ((r.dealerIndex + 2) % r.players.length) = some p0 ∧
        (startNewGameR deck r users).1.players.get?
            ((r.dealerIndex + 2) % r.players.length) = some p ∧
        p.bet = r.bigBlind ∧ p.chips = p0.chips - r.bigBlind) ∧
     (startNewGameR deck r users).1.pot = r.smallBlind + r.bigBlind ∧
     (startNewGameR deck r users).1.currentBet = r.bigBlind ∧
     (startNewGameR deck r users).1.currentPlayerIndex =
       (((r.dealerIndex + 3) % r.players.length : Nat) : Int)) ∧
    (((startNewGameR baseDeck room3 users3).1.players.get? 1).map Player.bet =
        some 50 ∧
     ((startNewGameR baseDeck room3 users3).1.players.get? 2).map Player.bet =
        some 100 ∧
     (startNewGameR baseDeck room3 users3).1.pot = 150 ∧
     (startNewGameR baseDeck room3 users3).1.currentBet = 100 ∧
     (startNewGameR baseDeck room3 users3).1.currentPlayerIndex = 0) := by
  constructor
  · have hguard : ¬ r.players.length < 2 := by omega
    have hNpos : 0 < r.players.length := by omega
    have hsb : (r.dealerIndex + 1) % r.players.length < r.players.length :=
      Nat.mod_lt _ hNpos
    have hbb : (r.dealerIndex + 2) % r.players.length < r.players.length :=
      Nat.mod_lt _ hNpos
    have hne : (r.dealerIndex + 1) % r.players.length ≠
        (r.dealerIndex + 2) % r.players.length :=
      succ_mod_ne_succ_succ_mod r.dealerIndex r.players.length hN
    rw [startNewGameR_def deck r users hguard]
    obtain ⟨q0, hq0⟩ :=
      exists_get? r.players ((r.dealerIndex + 1) % r.players.length) hsb
    obtain ⟨w0, hw0⟩ :=
      exists_get? r.players ((r.dealerIndex + 2) % r.players.length) hbb
    have hpbsb : (postBlindsAux r.smallBlind r.bigBlind
        ((r.dealerIndex + 1) % r.players.length)
        ((r.dealerIndex + 2) % r.players.length) 0 r.players users).1.get?
          ((r.dealerIndex + 1) % r.players.length) =
        some (blindStep r.smallBlind r.bigBlind
          ((r.dealerIndex + 1) % r.players.length)
          ((r.dealerIndex + 2) % r.players.length)
          ((r.dealerIndex + 1) % r.players.length) q0) := by
      rw [postBlindsAux_get?, hq0]
      simp
    have hpbbb : (postBlindsAux r.smallBlind r.bigBlind
        ((r.dealerIndex + 1) % r.players.length)
        ((r.dealerIndex + 2) % r.players.length) 0 r.players users).1.get?
          ((r.dealerIndex + 2) % r.players.length) =
        some (blindStep r.smallBlind r.bigBlind
          ((r.dealerIndex + 1) % r.players.length)
          ((r.dealerIndex + 2) % r.players.length)
          ((r.dealerIndex + 2) % r.players.length) w0) := by
      rw [postBlindsAux_get?, hw0]
      simp
    refine ⟨rfl, ?_, ?_, ?_, rfl, rfl⟩
    · have hchain :
          ((dealPass (dealPass (postBlindsAux r.smallBlind r.bigBlind
              ((r.dealerIndex + 1) % r.players.length)
              ((r.dealerIndex + 2) % r.players.length) 0 r.players users).1 deck).1
            (dealPass (postBlindsAux r.smallBlind r.bigBlind
              ((r.dealerIndex + 1) % r.players.length)
              ((r.dealerIndex + 2) % r.players.length) 0 r.players users).1 deck).2).1.get?
              ((r.dealerIndex + 1) % r.players.length)).map stripCards =
            some (stripCards (blindStep r.smallBlind r.bigBlind
              ((r.dealerIndex + 1) % r.players.length)
              ((r.dealerIndex + 2) % r.players.length)
              ((r.dealerIndex + 1) % r.players.length) q0)) := by
        rw [dealPass_stripCards, dealPass_stripCards, hpbsb]
        rfl
      rw [Option.map_eq_some'] at hchain
      obtain ⟨p, hp, hpstrip⟩ := hchain
      refine ⟨q0, p, hq0, hp, ?_, ?_⟩
      · have hbet := congrArg Player.bet hpstrip
        simp only [stripCards] at hbet
        rw [hbet, blindStep_at_sb]
      · have hchips := congrArg Player.chips hpstrip
        simp only [stripCards] at hchips
        rw [hchips, blindStep_at_sb]
    · have hchain :
          ((dealPass (dealPass (postBlindsAux r.smallBlind r.bigBlind
              ((r.dealerIndex + 1) % r.players.length)
              ((r.dealerIndex + 2) % r.players.length) 0 r.players users).1 deck).1
            (dealPass (postBlindsAux r.smallBlind r.bigBlind
              ((r.dealerIndex + 1) % r.players.length)
              ((r.dealerIndex + 2) % r.players.length) 0 r.players users).1 deck).2).1.get?
              ((r.dealerIndex + 2) % r.players.length)).map stripCards =
            some (stripCards (blindStep r.smallBlind r.bigBlind
              ((r.dealerIndex + 1) % r.players.length)
              ((r.dealerIndex + 2) % r.players.length)
              ((r.dealerIndex + 2) % r.players.length) w0)) := by
        rw [dealPass_stripCards, dealPass_stripCards, hpbbb]
        rfl
      rw [Option.map_eq_some'] at hchain
      obtain ⟨p, hp, hpstrip⟩ := hchain
      refine ⟨w0, p, hw0, hp, ?_, ?_⟩
      · have hbet := congrArg Player.bet hpstrip
        simp only [stripCards] at hbet
        rw [hbet, blindStep_at_bb _ _ _ _ _ (Ne.symm hne)]
      · have hchips := congrArg Player.chips hpstrip
        simp only [stripCards] at hchips
        rw [hchips, blindStep_at_bb _ _ _ _ _ (Ne.symm hne)]
    · show 0 + (postBlindsAux r.smallBlind r.bigBlind
          ((r.dealerIndex + 1) % r.players.length)
          ((r.dealerIndex + 2) % r.players.length) 0 r.players users).2.1 =
        r.smallBlind + r.bigBlind
      rw [postBlindsAux_potAdd _ _ _ _ hne]
      rw [if_pos ⟨Nat.zero_le _, by omega⟩, if_pos ⟨Nat.zero_le _, by omega⟩]
      ring
  · exact ⟨by decide, by decide, by decide, by decide, by decide⟩

set_option maxRecDepth 8000 in
/-- Witness for C1: the general statement applied to the concrete
three-player room. -/
theorem claim_C1_hand_start_witness :
    2 ≤ room3.players.length ∧
    (startNewGameR baseDeck room3 users3).1.pot =
      room3.smallBlind + room3.bigBlind :=
  ⟨by decide,
   (claim_C1_hand_start baseDeck room3 users3 (by decide)).1.2.2.2.1⟩

/-! ### Claim C2 -/

theorem scanNext_eq_find? (ps : List Player) :
    ∀ (cnt s : Nat), s < ps.length →
      scanNext ps s cnt =
        ((List.range cnt).map (fun k => (s + k) % ps.length)).find?
          (fun i => eligAt ps i) := by
  intro cnt
  induction cnt with
  | zero => intro s hs; rfl
  | succ n ih =>
    intro s hs
    obtain ⟨p, hp⟩ := exists_get? ps s hs
    rw [List.get?_eq_getElem?] at hp
    have hmod : (s + 0) % ps.length = s := by
      rw [Nat.add_zero]
      exact Nat.mod_eq_of_lt hs
    rw [List.range_succ_eq_map, List.map_cons, hmod, List.map_map]
    have hcomp :
        ((fun k => (s + k) % ps.length) ∘ Nat.succ) =
          (fun k => ((s + 1) % ps.length + k) % ps.length) := by
      funext k
      simp only [Function.comp]
      rw [Nat.mod_add_mod]
      congr 1
      omega
    rw [hcomp]
    by_cases helig : eligAt ps s = true
    · rw [List.find?_cons_of_pos _ helig]
      have hb : eligibleB p = true := by
        simpa [eligAt, hp] using helig
      simp [scanNext, hp, hb]
    · have hnot : eligAt ps s = false := by
        simpa using helig
      rw [List.find?_cons_of_neg _ (by simp [hnot])]
      have hb : eligibleB p = false := by
        simpa [eligAt, hp] using hnot
      have hlt : (s + 1) % ps.length < ps.length :=
        Nat.mod_lt _ (by omega)
      rw [← ih ((s + 1) % ps.length) hlt]
      simp [scanNext, hp, hb]

set_option maxRecDepth 4000 in
/-- C2: the turn-advance step selects, scanning from
`(currentPlayerIndex + 1) mod N` and wrapping at most once around all N
seats, the first seat whose player is neither folded nor all-in and has
chips; if one exists, the advance only moves `currentPlayerIndex` there,
and if none exists the phase engine (`nextPhase`) is invoked instead. In
particular, with players [A (folded), B (all-in), C (active)] and current
player A, the advance lands on C, skipping B. -/
theorem claim_C2_turn_advance :
    (∀ r : Room, 0 < r.players.length →
      nextPlayerScan r =
        firstEligibleFrom r.players
          (((r.currentPlayerIndex + 1) % (r.players.length : Int)).toNat)) ∧
    (∀ (fuel : Nat) (r : Room) (users : Users) (pick idx : Nat),
      nextPlayerScan r = some idx →
        nextPlayerF fuel r users pick =
          ({ r with currentPlayerIndex := (idx : Int) }, users)) ∧
    (∀ (fuel : Nat) (r : Room) (users : Users) (pick : Nat),
      nextPlayerScan r = none →
        nextPlayerF fuel r users pick = nextPhaseF fuel r users pick) ∧
    nextPlayerScan roomScan = some 2 ∧
    (nextPlayerF 8 roomScan [] 0).1.currentPlayerIndex = 2 := by
  refine ⟨?_, ?_, ?_, by decide, by decide⟩
  · intro r hN
    have h0 : (0 : Int) < (r.players.length : Int) := by exact_mod_cast hN
    have h1 : 0 ≤ (r.currentPlayerIndex + 1) % (r.players.length : Int) :=
      Int.emod_nonneg _ (by omega)
    have h2 : (r.currentPlayerIndex + 1) % (r.players.length : Int) <
        (r.players.length : Int) := Int.emod_lt_of_pos _ h0
    have hlt : ((r.currentPlayerIndex + 1) % (r.players.length : Int)).toNat <
        r.players.length := by omega
    exact scanNext_eq_find? r.players r.players.length _ hlt
  · intro fuel r users pick idx h
    simp [nextPlayerF, h]
  · intro fuel r users pick h
    simp [nextPlayerF, h]

/-- Witness for C2: the scan-specification clause applied to the concrete
[folded, all-in, active] room. -/
theorem claim_C2_turn_advance_witness :
    0 < roomScan.players.length ∧
    nextPlayerScan roomScan =
      firstEligibleFrom roomScan.players
        (((roomScan.currentPlayerIndex + 1) % (roomScan.players.length : Int)).toNat) :=
  ⟨by decide, claim_C2_turn_advance.1 roomScan (by decide)⟩

/-! ### Settlement lemmas (claims C3 and C7) -/

theorem get?_lt_length {α : Type} {l : List α} {i : Nat} {a : α}
    (h : l.get? i = some a) : i < l.length := by
  by_contra hge
  rw [List.get?_eq_none.mpr (by omega)] at h
  cases h

theorem nthActiveIdx_spec (ps : List Player) :
    ∀ k, k < (ps.filter (fun p => !p.folded)).length →
      ∃ i w, nthActiveIdx ps k = some i ∧ ps.get? i = some w ∧
        w.folded = false ∧
        (ps.filter (fun p => !p.folded)).get? k = some w := by
  induction ps with
  | nil => intro k h; simp at h
  | cons p ps ih =>
    intro k hk
    by_cases hf : p.folded
    · rw [List.filter_cons_of_neg (by simp [hf])] at hk ⊢
      obtain ⟨i, w, h1, h2, h3, h4⟩ := ih k hk
      refine ⟨i + 1, w, ?_, h2, h3, h4⟩
      simp [nthActiveIdx, hf, h1]
    · rw [List.filter_cons_of_pos (by simp [hf])] at hk ⊢
      cases k with
      | zero =>
        refine ⟨0, p, ?_, rfl, by simp [hf], rfl⟩
        simp [nthActiveIdx, hf]
      | succ n =>
        simp only [List.length_cons] at hk
        obtain ⟨i, w, h1, h2, h3, h4⟩ := ih n (by omega)
        refine ⟨i + 1, w, ?_, h2, h3, h4⟩
        simp [nthActiveIdx, hf, h1]

theorem getUserChips_setUserChips (us : Users) (uid : String) (c : ℚ) :
    ∀ u, getUser us uid = some u →
      getUserChips (setUserChips us uid c) uid = some c := by
  induction us with
  | nil => intro u h; cases h
  | cons a us ih =>
    intro u h
    by_cases ha : a.id = uid
    · simp [getUserChips, getUser, setUserChips, ha]
    · have hpa : ¬ (fun (v : UserRec) => decide (v.id = uid)) a = true := by
        simp [ha]
      have hfind := @List.find?_cons_of_neg UserRec
        (fun v => decide (v.id = uid)) a us hpa
      have h' : getUser us uid = some u := by
        simpa only [getUser, hfind] using h
      have hres := ih u h'
      have hfind2 := @List.find?_cons_of_neg UserRec
        (fun v => decide (v.id = uid)) a
        (List.map (fun v => if v.id = uid then { v with chips := c } else v) us) hpa
      simp only [getUserChips, getUser, setUserChips, List.map_cons, if_neg ha]
      rw [hfind2]
      simpa only [getUserChips, getUser, setUserChips] using hres

theorem endGameF_award (r : Room) (users : Users) (pick : Nat)
    (hpick : (if (r.players.filter (fun p => !p.folded)).length = 1 then 0 else pick) <
      (r.players.filter (fun p => !p.folded)).length) :
    ∃ i w,
      nthActiveIdx r.players
        (if (r.players.filter (fun p => !p.folded)).length = 1 then 0 else pick) =
          some i ∧
      r.players.get? i = some w ∧ w.folded = false ∧
      (endGameF r users pick).1.players.get? i =
        some { w with chips := w.chips + r.pot } ∧
      (endGameF r users pick).1.phase = Phase.waiting ∧
      (endGameF r users pick).1.dealerIndex =
        (r.dealerIndex + 1) % r.players.length ∧
      (∀ u, getUser users w.userId = some u →
        getUserChips (endGameF r users pick).2 w.userId =
          some (w.chips + r.pot)) := by
  obtain ⟨i, w, h1, h2, h3, _h4⟩ := nthActiveIdx_spec r.players _ hpick
  have hlt : i < r.players.length := get?_lt_length h2
  refine ⟨i, w, h1, h2, h3, ?_, ?_, ?_, ?_⟩
  · simp only [endGameF, h1, h2]
    exact List.get?_set_eq_of_lt _ (by simpa using hlt)
  · simp only [endGameF, h1, h2]
  · simp only [endGameF, h1, h2]
  · intro u hu
    simp only [endGameF, h1, h2, hu]
    exact getUserChips_setUserChips users w.userId _ u hu

theorem endGameF_single_pick (r : Room) (users : Users)
    (h : (r.players.filter (fun p => !p.folded)).length = 1) :
    ∀ pick pick', endGameF r users pick = endGameF r users pick' := by
  intro pick pick'
  simp [endGameF, h]

/-! ### Claim C3 -/

set_option maxRecDepth 8000 in
/-- C3 counterexample: in the two-player hand where B folds, exactly one
non-folded player (A) remains, yet no settlement happens: the phase stays
preflop (not waiting), the pot keeps its 150 chips, and A's chips remain
9900 instead of increasing by the pot — the hand simply continues with A to
act. -/
theorem claim_C3_counterexample :
    ((playerActionR (startNewGameR baseDeck room2 users2).1
        (startNewGameR baseDeck room2 users2).2 "sB" "B" Action.fold none 0
        8).1.players.filter (fun p => !p.folded)).length = 1 ∧
    (playerActionR (startNewGameR baseDeck room2 users2).1
        (startNewGameR baseDeck room2 users2).2 "sB" "B" Action.fold none 0
        8).1.phase = Phase.preflop ∧
    ¬ (playerActionR (startNewGameR baseDeck room2 users2).1
        (startNewGameR baseDeck room2 users2).2 "sB" "B" Action.fold none 0
        8).1.phase = Phase.waiting ∧
    (playerActionR (startNewGameR baseDeck room2 users2).1
        (startNewGameR baseDeck room2 users2).2 "sB" "B" Action.fold none 0
        8).1.pot = 150 ∧
    ((playerActionR (startNewGameR baseDeck room2 users2).1
        (startNewGameR baseDeck room2 users2).2 "sB" "B" Action.fold none 0
        8).1.players.get? 0).map Player.chips = some 9900 := by
  exact ⟨by decide, by decide, by decide, by decide, by decide⟩

set_option maxRecDepth 8000 in
/-- C3 amended: settlement is triggered only when the phase engine reaches
showdown, not at the moment an action leaves exactly one non-folded player;
when `endGame` does run with exactly one non-folded player, it awards the
entire pot to that player deterministically (the random pick is ignored).
In the two-player fold scenario the hand instead continues in preflop with
the remaining player to act. -/
theorem claim_C3_amended :
    (∀ (r : Room) (users : Users) (pick : Nat),
      (r.players.filter (fun p => !p.folded)).length = 1 →
        (∀ pick', endGameF r users pick = endGameF r users pick') ∧
        ∃ i w, nthActiveIdx r.players 0 = some i ∧
          r.players.get? i = some w ∧ w.folded = false ∧
          (endGameF r users pick).1.players.get? i =
            some { w with chips := w.chips + r.pot } ∧
          (endGameF r users pick).1.phase = Phase.waiting) ∧
    ((playerActionR (startNewGameR baseDeck room2 users2).1
        (startNewGameR baseDeck room2 users2).2 "sB" "B" Action.fold none 0
        8).1.phase = Phase.preflop ∧
     (playerActionR (startNewGameR baseDeck room2 users2).1
        (startNewGameR baseDeck room2 users2).2 "sB" "B" Action.fold none 0
        8).1.currentPlayerIndex = 0) := by
  constructor
  · intro r users pick hone
    refine ⟨endGameF_single_pick r users hone pick, ?_⟩
    have hpick : (if (r.players.filter (fun p => !p.folded)).length = 1
        then 0 else pick) < (r.players.filter (fun p => !p.folded)).length := by
      rw [if_pos hone, hone]
      omega
    obtain ⟨i, w, h1, h2, h3, h4, h5, _h6, _h7⟩ := endGameF_award r users pick hpick
    rw [if_pos hone] at h1
    exact ⟨i, w, h1, h2, h3, h4, h5⟩
  · exact ⟨by decide, by decide⟩

set_option maxRecDepth 8000 in
/-- Witness for C3 amended: the deterministic single-player settlement
clause applied to the concrete post-fold two-player state. -/
theorem claim_C3_amended_witness :
    ((playerActionR (startNewGameR baseDeck room2 users2).1
        (startNewGameR baseDeck room2 users2).2 "sB" "B" Action.fold none 0
        8).1.players.filter (fun p => !p.folded)).length = 1 ∧
    (∀ pick',
      endGameF (playerActionR (startNewGameR baseDeck room2 users2).1
          (startNewGameR baseDeck room2 users2).2 "sB" "B" Action.fold none 0
          8).1
        (playerActionR (startNewGameR baseDeck room2 users2).1
          (startNewGameR baseDeck room2 users2).2 "sB" "B" Action.fold none 0
          8).2 0 =
      endGameF (playerActionR (startNewGameR baseDeck room2 users2).1
          (startNewGameR baseDeck room2 users2).2 "sB" "B" Action.fold none 0
          8).1
        (playerActionR (startNewGameR baseDeck room2 users2).1
          (startNewGameR baseDeck room2 users2).2 "sB" "B" Action.fold none 0
          8).2 pick') :=
  ⟨by decide,
   (claim_C3_amended.1
     (playerActionR (startNewGameR baseDeck room2 users2).1
       (startNewGameR baseDeck room2 users2).2 "sB" "B" Action.fold none 0 8).1
     (playerActionR (startNewGameR baseDeck room2 users2).1
       (startNewGameR baseDeck room2 users2).2 "sB" "B" Action.fold none 0 8).2
     0 (by decide)).1⟩

/-! ### Claim C4 -/

theorem endGameF_betsLe (r : Room) (users : Users) (pick : Nat)
    (h : betsLeCurrent r) : betsLeCurrent (endGameF r users pick).1 := by
  simp only [endGameF]
  cases hn : nthActiveIdx r.players
      (if (r.players.filter (fun p => !p.folded)).length = 1 then 0 else pick) with
  | none => simp only [hn]; exact h
  | some i =>
    simp only [hn]
    cases hg : r.players.get? i with
    | none => simp only [hg]; exact h
    | some w =>
      simp only [hg]
      intro p hp
      rcases List.mem_or_eq_of_mem_set hp with hmem | rfl
      · exact h p hmem
      · exact h w (List.get?_mem hg)

theorem betsLe_resetAll (r2 : Room) (ps : List Player)
    (hps : r2.players = ps.map resetBet) (hcb : r2.currentBet = 0) :
    betsLeCurrent r2 := by
  intro p hp
  rw [hps] at hp
  obtain ⟨q, _hq, rfl⟩ := List.mem_map.mp hp
  rw [hcb]
  simp [resetBet]

theorem nextPhaseF_betsLe :
    ∀ (fuel : Nat) (r : Room) (users : Users) (pick : Nat),
      betsLeCurrent (nextPhaseF fuel r users pick).1 ∨
        (nextPhaseF fuel r users pick).1 = r := by
  intro fuel
  induction fuel with
  | zero => intro r users pick; exact Or.inr rfl
  | succ n ih =>
    intro r users pick
    obtain ⟨rid, ps, dk, cc, pt, cb, bb, sb, di, cpi, ph, mp⟩ := r
    cases ph <;>
      simp only [nextPhaseF] <;>
      first
        | (left
           exact endGameF_betsLe _ users pick (betsLe_resetAll _ ps rfl rfl))
        | (cases hs : nextPlayerScan _ with
           | some idx => left; exact betsLe_resetAll _ ps rfl rfl
           | none =>
             rcases ih _ users pick with hinv | heq
             · left; exact hinv
             · left; rw [heq]; exact betsLe_resetAll _ ps rfl rfl)

theorem nextPlayerF_betsLe (fuel : Nat) (r : Room) (users : Users) (pick : Nat)
    (h : betsLeCurrent r) : betsLeCurrent (nextPlayerF fuel r users pick).1 := by
  unfold nextPlayerF
  cases hs : nextPlayerScan r with
  | some idx => exact fun p hp => h p hp
  | none =>
    rcases nextPhaseF_betsLe fuel r users pick with hinv | heq
    · exact hinv
    · rw [heq]; exact h

theorem applySwitch_betsLe (r : Room) (users : Users) (i : Nat) (suid : String)
    (act : Action) (amount : Option Int)
    (h : betsLeCurrent r) (hact : act ≠ Action.raise) :
    betsLeCurrent (applySwitch r users i suid act amount).1 := by
  unfold applySwitch
  cases hg : r.players.get? i with
  | none => exact h
  | some p =>
    cases act with
    | raise => exact absurd rfl hact
    | fold =>
      intro q hq
      rcases List.mem_or_eq_of_mem_set hq with hmem | rfl
      · exact h q hmem
      · exact h p (List.get?_mem hg)
    | call =>
      intro q hq
      rcases List.mem_or_eq_of_mem_set hq with hmem | rfl
      · exact h q hmem
      · show p.bet + min (r.currentBet - p.bet) p.chips ≤ r.currentBet
        have hmin : min (r.currentBet - p.bet) p.chips ≤ r.currentBet - p.bet :=
          min_le_left _ _
        linarith
    | check =>
      dsimp only
      by_cases hc : r.currentBet > p.bet
      · rw [if_pos hc]
        intro q hq
        rcases List.mem_or_eq_of_mem_set hq with hmem | rfl
        · exact h q hmem
        · show p.bet + min (r.currentBet - p.bet) p.chips ≤ r.currentBet
          have hmin : min (r.currentBet - p.bet) p.chips ≤ r.currentBet - p.bet :=
            min_le_left _ _
          linarith
      · rw [if_neg hc]
        exact h
    | allin =>
      intro q hq
      rcases List.mem_or_eq_of_mem_set hq with hmem | rfl
      · have hle := h q hmem
        dsimp only
        split_ifs with hgt
        · linarith
        · exact hle
      · dsimp only
        split_ifs with hgt
        · exact le_refl _
        · have hle : p.bet + p.chips ≤ r.currentBet := by
            push_neg at hgt
            exact hgt
          exact hle

theorem applySwitch_raise_betsLe (r : Room) (users : Users) (i : Nat)
    (suid : String) (amount : Option Int) (p : Player)
    (h : betsLeCurrent r) (hg : r.players.get? i = some p)
    (hamt : 0 ≤ raiseAmountOf r amount)
    (hcap : r.currentBet + raiseAmountOf r amount - p.bet ≤ p.chips) :
    betsLeCurrent (applySwitch r users i suid Action.raise amount).1 := by
  unfold applySwitch
  rw [hg]
  intro q hq
  rcases List.mem_or_eq_of_mem_set hq with hmem | rfl
  · show q.bet ≤ p.bet + min (r.currentBet + raiseAmountOf r amount - p.bet) p.chips
    rw [min_eq_left hcap]
    have := h q hmem
    linarith
  · exact le_refl _

theorem playerActionR_betsLe (r : Room) (users : Users) (sid suid : String)
    (act : Action) (amount : Option Int) (pick fuel : Nat)
    (h : betsLeCurrent r) (hact : act ≠ Action.raise) :
    betsLeCurrent (playerActionR r users sid suid act amount pick fuel).1 := by
  unfold playerActionR
  cases hf : r.players.findIdx? (fun p => p.socketId = sid) with
  | none => exact h
  | some i =>
    dsimp only
    by_cases hcpi : (i : Int) ≠ r.currentPlayerIndex
    · rw [if_pos hcpi]; exact h
    · rw [if_neg hcpi]
      exact nextPlayerF_betsLe fuel _ _ pick
        (applySwitch_betsLe r users i suid act amount h hact)

set_option maxRecDepth 8000 in
/-- C4 counterexample: from the reachable hand-start state where short-stacked
A (10 chips) is first to act against a 100-chip current bet, A's raise —
capped by A's remaining 10 chips — sets `currentBet` to A's total bet of 10,
strictly below C's posted big blind of 100, so the claimed invariant
`currentBet ≥ every bet` is not preserved by a chip-capped raise. -/
theorem claim_C4_counterexample :
    betsLeCurrent (startNewGameR baseDeck roomShort users3).1 ∧
    (playerActionR (startNewGameR baseDeck roomShort users3).1
        (startNewGameR baseDeck roomShort users3).2 "sA" "A" Action.raise none 0
        8).1.currentBet = 10 ∧
    ((playerActionR (startNewGameR baseDeck roomShort users3).1
        (startNewGameR baseDeck roomShort users3).2 "sA" "A" Action.raise none 0
        8).1.players.get? 2).map Player.bet = some 100 ∧
    ¬ betsLeCurrent (playerActionR (startNewGameR baseDeck roomShort users3).1
        (startNewGameR baseDeck roomShort users3).2 "sA" "A" Action.raise none 0
        8).1 :=
  ⟨by decide, by decide, by decide, by decide⟩

/-- C4 amended: `currentBet ≥ every seated player's bet` is preserved by
fold, call, check and all-in, and by a raise whose full amount the acting
player's chips can cover (with a nonnegative raise amount); it is NOT
preserved in general — a raise capped by the acting player's chips sets
`currentBet` to that player's smaller total bet, which can fall below
another player's posted bet. -/
theorem claim_C4_amended :
    (∀ (r : Room) (users : Users) (sid suid : String) (act : Action)
        (amount : Option Int) (pick fuel : Nat),
      betsLeCurrent r → act ≠ Action.raise →
        betsLeCurrent (playerActionR r users sid suid act amount pick fuel).1) ∧
    (∀ (r : Room) (users : Users) (sid suid : String) (amount : Option Int)
        (pick fuel : Nat) (i : Nat) (p : Player),
      betsLeCurrent r →
      r.players.findIdx? (fun q => q.socketId = sid) = some i →
      r.players.get? i = some p →
      0 ≤ raiseAmountOf r amount →
      r.currentBet + raiseAmountOf r amount - p.bet ≤ p.chips →
        betsLeCurrent
          (playerActionR r users sid suid Action.raise amount pick fuel).1) := by
  constructor
  · exact playerActionR_betsLe
  · intro r users sid suid amount pick fuel i p h hf hg hamt hcap
    unfold playerActionR
    rw [hf]
    dsimp only
    by_cases hcpi : (i : Int) ≠ r.currentPlayerIndex
    · rw [if_pos hcpi]; exact h
    · rw [if_neg hcpi]
      exact nextPlayerF_betsLe fuel _ _ pick
        (applySwitch_raise_betsLe r users i suid amount p h hg hamt hcap)

set_option maxRecDepth 8000 in
/-- Witness for C4 amended: the fold clause applied to the concrete
hand-start state. -/
theorem claim_C4_amended_witness :
    betsLeCurrent (startNewGameR baseDeck room3 users3).1 ∧
    Action.fold ≠ Action.raise ∧
    betsLeCurrent (playerActionR (startNewGameR baseDeck room3 users3).1
      (startNewGameR baseDeck room3 users3).2 "sA" "A" Action.fold none 0
      8).1 :=
  ⟨by decide, by decide,
   claim_C4_amended.1 (startNewGameR baseDeck room3 users3).1
     (startNewGameR baseDeck room3 users3).2 "sA" "A" Action.fold none 0 8
     (by decide) (by decide)⟩

/-! ### Claim C5 -/

theorem setRoom_self (rooms : List (String × Room)) (rid : String) (room : Room)
    (h : findRoom rooms rid = some room) : setRoom rooms rid room = rooms := by
  induction rooms with
  | nil => cases h
  | cons e rest ih =>
    by_cases he : e.1 = rid
    · have hfind := @List.find?_cons_of_pos (String × Room)
        (fun rr => decide (rr.1 = rid)) e rest (by simp [he])
      simp only [findRoom, hfind, Option.map_some'] at h
      cases h
      simp only [setRoom, if_pos he]
    · have hfind := @List.find?_cons_of_neg (String × Room)
        (fun rr => decide (rr.1 = rid)) e rest (by simp [he])
      simp only [findRoom, hfind] at h
      simp only [setRoom, if_neg he]
      rw [ih h]

theorem playerActionR_noop (r : Room) (users : Users) (sid suid : String)
    (act : Action) (amount : Option Int) (pick fuel : Nat)
    (h : r.players.findIdx? (fun p => p.socketId = sid) = none ∨
      ∃ i, r.players.findIdx? (fun p => p.socketId = sid) = some i ∧
        (i : Int) ≠ r.currentPlayerIndex) :
    playerActionR r users sid suid act amount pick fuel = (r, users) := by
  unfold playerActionR
  rcases h with hnone | ⟨i, hi, hne⟩
  · rw [hnone]
  · rw [hi]
    dsimp only
    rw [if_pos hne]

/-- C5: an action request is a silent no-op — neither the rooms map, any
room or player field, nor the external balance store changes — whenever the
socket has no current room, the current room id is absent from the rooms
map, the sender is not seated in the room, or the sender is seated but is
not the player at `currentPlayerIndex`. -/
theorem claim_C5_out_of_turn_noop
    (rooms : List (String × Room)) (users : Users) (currentRoom : Option String)
    (sid suid : String) (act : Action) (amt : Option Int) (pick fuel : Nat)
    (h : currentRoom = none ∨
      (∃ rid, currentRoom = some rid ∧ findRoom rooms rid = none) ∨
      (∃ rid room, currentRoom = some rid ∧ findRoom rooms rid = some room ∧
        (room.players.findIdx? (fun p => p.socketId = sid) = none ∨
         ∃ i, room.players.findIdx? (fun p => p.socketId = sid) = some i ∧
           (i : Int) ≠ room.currentPlayerIndex))) :
    playerActionH rooms users currentRoom sid suid act amt pick fuel =
      (rooms, users) := by
  rcases h with hnone | ⟨rid, hrid, hfind⟩ | ⟨rid, room, hrid, hfind, hguard⟩
  · rw [hnone]; rfl
  · rw [hrid]
    simp only [playerActionH, hfind]
  · rw [hrid]
    simp only [playerActionH, hfind]
    rw [playerActionR_noop room users sid suid act amt pick fuel hguard]
    dsimp only
    rw [setRoom_self rooms rid room hfind]

set_option maxRecDepth 8000 in
/-- Witness for C5: a sender who is not seated in the room leaves the rooms
map and the user store untouched. -/
theorem claim_C5_out_of_turn_noop_witness :
    playerActionH [("r1", room3)] users3 (some "r1") "sZ" "Z" Action.fold none
      0 8 = ([("r1", room3)], users3) :=
  claim_C5_out_of_turn_noop [("r1", room3)] users3 (some "r1") "sZ" "Z"
    Action.fold none 0 8
    (Or.inr (Or.inr ⟨"r1", room3, rfl, by decide, Or.inl (by decide)⟩))

/-! ### Claim C6 -/

theorem applySwitch_potChips (r : Room) (users : Users) (i : Nat)
    (suid : String) (act : Action) (amount : Option Int) :
    potChips (applySwitch r users i suid act amount).1 = potChips r := by
  unfold applySwitch
  cases hg : r.players.get? i with
  | none => rfl
  | some p =>
    cases act with
    | fold =>
      dsimp only
      simp only [potChips]
      rw [chipSum_set r.players i p _ hg]
      dsimp only
      ring
    | call =>
      dsimp only
      simp only [potChips]
      rw [chipSum_set r.players i p _ hg]
      dsimp only
      ring
    | raise =>
      dsimp only
      simp only [potChips]
      rw [chipSum_set r.players i p _ hg]
      dsimp only
      ring
    | check =>
      dsimp only
      split_ifs with hc
      · simp only [potChips]
        rw [chipSum_set r.players i p _ hg]
        dsimp only
        ring
      · rfl
    | allin =>
      dsimp only
      simp only [potChips]
      rw [chipSum_set r.players i p _ hg]
      dsimp only
      ring

theorem endGameF_waiting_or_eq (r : Room) (users : Users) (pick : Nat) :
    (endGameF r users pick).1.phase = Phase.waiting ∨
      endGameF r users pick = (r, users) := by
  simp only [endGameF]
  cases hn : nthActiveIdx r.players
      (if (r.players.filter (fun p => !p.folded)).length = 1 then 0 else pick) with
  | none => simp only [hn]; right; trivial
  | some i =>
    simp only [hn]
    cases hg : r.players.get? i with
    | none => simp only [hg]; right; trivial
    | some w => simp only [hg]; left; trivial

theorem scanMatch_potChips (n : Nat) (X : Room) (users : Users) (pick : Nat)
    (ih : ∀ (r : Room) (users : Users) (pick : Nat),
      (nextPhaseF n r users pick).1.phase ≠ Phase.waiting →
      potChips (nextPhaseF n r users pick).1 = potChips r)
    (hph : (match nextPlayerScan X with
      | some idx => ({ X with currentPlayerIndex := (idx : Int) }, users)
      | none => nextPhaseF n X users pick).1.phase ≠ Phase.waiting) :
    potChips (match nextPlayerScan X with
      | some idx => ({ X with currentPlayerIndex := (idx : Int) }, users)
      | none => nextPhaseF n X users pick).1 = potChips X := by
  cases hs : nextPlayerScan X with
  | some idx => simp only [hs]; rfl
  | none =>
    simp only [hs]
    simp only [hs] at hph
    exact ih X users pick hph

theorem nextPhaseF_potChips :
    ∀ (fuel : Nat) (r : Room) (users : Users) (pick : Nat),
      (nextPhaseF fuel r users pick).1.phase ≠ Phase.waiting →
      potChips (nextPhaseF fuel r users pick).1 = potChips r := by
  intro fuel
  induction fuel with
  | zero => intro r users pick _h; rfl
  | succ n ih =>
    intro r users pick hph
    obtain ⟨rid, ps, dk, cc, pt, cb, bb, sb, di, cpi, ph, mp⟩ := r
    cases ph <;> simp only [nextPhaseF] at hph ⊢
    case waiting =>
      exact (scanMatch_potChips n _ users pick ih hph).trans
        (by simp [potChips, chipSum_resetBet])
    case preflop =>
      exact (scanMatch_potChips n _ users pick ih hph).trans
        (by simp [potChips, chipSum_resetBet])
    case flop =>
      exact (scanMatch_potChips n _ users pick ih hph).trans
        (by simp [potChips, chipSum_resetBet])
    case turn =>
      exact (scanMatch_potChips n _ users pick ih hph).trans
        (by simp [potChips, chipSum_resetBet])
    case river =>
      rcases endGameF_waiting_or_eq
          { id := rid, players := ps.map resetBet, deck := dk,
            communityCards := cc, pot := pt, currentBet := 0, bigBlind := bb,
            smallBlind := sb, dealerIndex := di, currentPlayerIndex := cpi,
            phase := Phase.showdown, maxPlayers := mp } users pick with
        hwait | heq
      · exact absurd hwait hph
      · rw [heq]
        simp [potChips, chipSum_resetBet]
    case showdown =>
      exact (scanMatch_potChips n _ users pick ih hph).trans
        (by simp [potChips, chipSum_resetBet])

theorem nextPlayerF_potChips (fuel : Nat) (r : Room) (users : Users) (pick : Nat)
    (h : (nextPlayerF fuel r users pick).1.phase ≠ Phase.waiting) :
    potChips (nextPlayerF fuel r users pick).1 = potChips r := by
  unfold nextPlayerF at h ⊢
  cases hs : nextPlayerScan r with
  | some idx => simp only [hs]; rfl
  | none =>
    simp only [hs] at h ⊢
    exact nextPhaseF_potChips fuel r users pick h

theorem playerActionR_potChips (r : Room) (users : Users) (sid suid : String)
    (act : Action) (amt : Option Int) (pick fuel : Nat)
    (h : (playerActionR r users sid suid act amt pick fuel).1.phase ≠ Phase.waiting) :
    potChips (playerActionR r users sid suid act amt pick fuel).1 = potChips r := by
  unfold playerActionR at h ⊢
  cases hf : r.players.findIdx? (fun p => p.socketId = sid) with
  | none => rfl
  | some i =>
    simp only [hf] at h ⊢
    by_cases hcpi : (i : Int) ≠ r.currentPlayerIndex
    · rw [if_pos hcpi]
    · rw [if_neg hcpi] at h ⊢
      exact (nextPlayerF_potChips fuel _ _ pick h).trans
        (applySwitch_potChips r users i suid act amt)

theorem self_mem_scanl {α β : Type} (f : β → α → β) (b : β) (l : List α) :
    b ∈ List.scanl f b l := by
  cases l with
  | nil => simp [List.scanl_nil]
  | cons a l => simp [List.scanl_cons]

theorem runReqs_potChips :
    ∀ (qs : List ActionReq) (s : Room × Users),
      (∀ st ∈ List.scanl stepReq s qs, st.1.phase ≠ Phase.waiting) →
      potChips (runReqs s qs).1 = potChips s.1 := by
  intro qs
  induction qs with
  | nil => intro s _h; rfl
  | cons q qs ih =>
    intro s h
    have hmem1 : stepReq s q ∈ List.scanl stepReq s (q :: qs) := by
      rw [List.scanl_cons]
      exact List.mem_append_right _ (self_mem_scanl stepReq (stepReq s q) qs)
    have hstep : potChips (stepReq s q).1 = potChips s.1 := by
      apply playerActionR_potChips
      exact h (stepReq s q) hmem1
    have htail : ∀ st ∈ List.scanl stepReq (stepReq s q) qs,
        st.1.phase ≠ Phase.waiting := by
      intro st hst
      apply h st
      rw [List.scanl_cons]
      exact List.mem_append_right _ hst
    calc potChips (runReqs s (q :: qs)).1
        = potChips (runReqs (stepReq s q) qs).1 := rfl
      _ = potChips (stepReq s q).1 := ih (stepReq s q) htail
      _ = potChips s.1 := hstep

/-- C6: chips are conserved within a hand. Hand start (pot reset plus blind
posting) leaves `pot + Σ chips` equal to the players' total chips before the
hand; a single applied action that does not end the hand (the resulting
phase is not `waiting`, i.e. settlement did not run) preserves
`pot + Σ chips`; and over any sequence of action requests along which the
hand stays active, `pot + Σ chips` equals its value at hand start. -/
theorem claim_C6_chip_conservation :
    (∀ (deck : List Card) (r : Room) (users : Users), 2 ≤ r.players.length →
      potChips (startNewGameR deck r users).1 = chipSum r.players) ∧
    (∀ (r : Room) (users : Users) (sid suid : String) (act : Action)
        (amt : Option Int) (pick fuel : Nat),
      (playerActionR r users sid suid act amt pick fuel).1.phase ≠ Phase.waiting →
      potChips (playerActionR r users sid suid act amt pick fuel).1 = potChips r) ∧
    (∀ (qs : List ActionReq) (s : Room × Users),
      (∀ st ∈ List.scanl stepReq s qs, st.1.phase ≠ Phase.waiting) →
      potChips (runReqs s qs).1 = potChips s.1) := by
  refine ⟨?_, playerActionR_potChips, runReqs_potChips⟩
  intro deck r users hN
  rw [startNewGameR_def deck r users (by omega)]
  simp only [potChips]
  rw [dealPass_chipSum, dealPass_chipSum]
  have h := postBlindsAux_chips r.smallBlind r.bigBlind
    ((r.dealerIndex + 1) % r.players.length)
    ((r.dealerIndex + 2) % r.players.length) 0 r.players users
  linarith

set_option maxRecDepth 8000 in
/-- Witness for C6: conservation at the concrete three-player hand start and
across a concrete in-hand call action. -/
theorem claim_C6_chip_conservation_witness :
    (2 ≤ room3.players.length ∧
     potChips (startNewGameR baseDeck room3 users3).1 = chipSum room3.players) ∧
    ((playerActionR (startNewGameR baseDeck room3 users3).1
        (startNewGameR baseDeck room3 users3).2 "sA" "A" Action.call none 0
        8).1.phase ≠ Phase.waiting ∧
     potChips (playerActionR (startNewGameR baseDeck room3 users3).1
        (startNewGameR baseDeck room3 users3).2 "sA" "A" Action.call none 0
        8).1 = potChips (startNewGameR baseDeck room3 users3).1) :=
  ⟨⟨by decide, claim_C6_chip_conservation.1 baseDeck room3 users3 (by decide)⟩,
   ⟨by decide,
    claim_C6_chip_conservation.2.1 (startNewGameR baseDeck room3 users3).1
      (startNewGameR baseDeck room3 users3).2 "sA" "A" Action.call none 0 8
      (by decide)⟩⟩

/-! ### Claim C7 -/

/-- C7: at settlement the pot recipient is a non-folded player; the winner's
chips increase by exactly the pot and, when the winner's user record exists,
the external store is synced to the new chip count; afterwards the phase is
`waiting` and the dealer advances to the next seat mod N. With exactly one
non-folded player the winner is that player, independent of the random
pick. -/
theorem claim_C7_settlement (r : Room) (users : Users) (pick : Nat)
    (hpick : (if (r.players.filter (fun p => !p.folded)).length = 1
        then 0 else pick) < (r.players.filter (fun p => !p.folded)).length) :
    ((r.players.filter (fun p => !p.folded)).length = 1 →
      ∀ pick', endGameF r users pick = endGameF r users pick') ∧
    ∃ i w,
      r.players.get? i = some w ∧ w.folded = false ∧
      (endGameF r users pick).1.players.get? i =
        some { w with chips := w.chips + r.pot } ∧
      (endGameF r users pick).1.phase = Phase.waiting ∧
      (endGameF r users pick).1.dealerIndex =
        (r.dealerIndex + 1) % r.players.length ∧
      (∀ u, getUser users w.userId = some u →
        getUserChips (endGameF r users pick).2 w.userId =
          some (w.chips + r.pot)) := by
  constructor
  · intro h1 pick'
    exact endGameF_single_pick r users h1 pick pick'
  · obtain ⟨i, w, _h1, h2, h3, h4, h5, h6, h7⟩ := endGameF_award r users pick hpick
    exact ⟨i, w, h2, h3, h4, h5, h6, h7⟩

set_option maxRecDepth 8000 in
/-- Witness for C7: settlement of the concrete river room where B has folded
awards the 150-chip pot to A, resets to waiting and advances the dealer. -/
theorem claim_C7_settlement_witness :
    ((if (roomEnd.players.filter (fun p => !p.folded)).length = 1
        then 0 else 0) < (roomEnd.players.filter (fun p => !p.folded)).length) ∧
    ∃ i w,
      roomEnd.players.get? i = some w ∧ w.folded = false ∧
      (endGameF roomEnd users2 0).1.players.get? i =
        some { w with chips := w.chips + roomEnd.pot } ∧
      (endGameF roomEnd users2 0).1.phase = Phase.waiting ∧
      (endGameF roomEnd users2 0).1.dealerIndex =
        (roomEnd.dealerIndex + 1) % roomEnd.players.length ∧
      (∀ u, getUser users2 w.userId = some u →
        getUserChips (endGameF roomEnd users2 0).2 w.userId =
          some (w.chips + roomEnd.pot)) :=
  ⟨by decide, (claim_C7_settlement roomEnd users2 0 (by decide)).2⟩

/-! ### Claim C8 -/

theorem popLast_some {d : List Card} (h : d ≠ []) :
    ∃ c, popLast d = some (c, d.dropLast) := by
  unfold popLast
  cases hl : d.getLast? with
  | none => exact absurd (List.getLast?_eq_none.mp hl) h
  | some c => exact ⟨c, rfl⟩

theorem dealCommunity_len :
    ∀ (n : Nat) (comm deck : List Card),
      (dealCommunity n comm deck).1.length = comm.length + min n deck.length ∧
      (dealCommunity n comm deck).2.length = deck.length - n := by
  intro n
  induction n with
  | zero => intro comm deck; exact ⟨by simp [dealCommunity], by simp [dealCommunity]⟩
  | succ m ih =>
    intro comm deck
    by_cases hd : deck = []
    · subst hd
      unfold dealCommunity
      rw [show popLast [] = none from rfl]
      obtain ⟨h1, h2⟩ := ih comm []
      constructor
      · rw [h1]; simp
      · rw [h2]; simp
    · obtain ⟨c, hc⟩ := popLast_some hd
      have hpos : 0 < deck.length := List.length_pos.mpr hd
      unfold dealCommunity
      rw [hc]
      obtain ⟨h1, h2⟩ := ih (comm ++ [c]) deck.dropLast
      constructor
      · rw [h1]
        simp only [List.length_append, List.length_dropLast]
        simp only [List.length_cons, List.length_nil]
        omega
      · rw [h2]
        rw [List.length_dropLast]
        omega

theorem dealPass_deckLen :
    ∀ (ps : List Player) (d : List Card),
      (dealPass ps d).2.length = d.length - min ps.length d.length := by
  intro ps
  induction ps with
  | nil => intro d; simp [dealPass]
  | cons p ps ih =>
    intro d
    by_cases hd : d = []
    · subst hd
      unfold dealPass
      rw [show popLast ([] : List Card) = none from rfl]
      dsimp only
      rw [ih []]
      simp
    · obtain ⟨c, hc⟩ := popLast_some hd
      have hpos : 0 < d.length := List.length_pos.mpr hd
      unfold dealPass
      rw [hc]
      dsimp only
      rw [ih d.dropLast]
      rw [List.length_dropLast]
      simp only [List.length_cons]
      omega

theorem endGameF_phaseComm (r : Room) (users : Users) (pick : Nat)
    (hcomm : r.communityCards.length = 5) (hph : r.phase = Phase.showdown) :
    phaseCommInv (endGameF r users pick).1 := by
  rcases endGameF_waiting_or_eq r users pick with hwait | heq
  · simp only [endGameF] at hwait ⊢
    cases hn : nthActiveIdx r.players
        (if (r.players.filter (fun p => !p.folded)).length = 1
          then 0 else pick) with
    | none =>
      simp only [hn] at hwait ⊢
      unfold phaseCommInv
      rw [hph]
      exact hcomm
    | some i =>
      simp only [hn] at hwait ⊢
      cases hg : r.players.get? i with
      | none =>
        simp only [hg] at hwait ⊢
        unfold phaseCommInv
        rw [hph]
        exact hcomm
      | some w =>
        simp only [hg] at hwait ⊢
        unfold phaseCommInv
        simp only
        right
        exact hcomm
  · rw [heq]
    unfold phaseCommInv
    rw [hph]
    exact hcomm

theorem scanMatch_phaseComm (n : Nat) (X : Room) (users : Users) (pick : Nat)
    (ih : ∀ (r : Room) (users : Users) (pick : Nat), phaseCommInv r →
      phaseCommInv (nextPhaseF n r users pick).1)
    (hX : phaseCommInv X) :
    phaseCommInv (match nextPlayerScan X with
      | some idx => ({ X with currentPlayerIndex := (idx : Int) }, users)
      | none => nextPhaseF n X users pick).1 := by
  cases hs : nextPlayerScan X with
  | some idx => simp only [hs]; exact hX
  | none => simp only [hs]; exact ih X users pick hX

theorem nextPhaseF_phaseComm :
    ∀ (fuel : Nat) (r : Room) (users : Users) (pick : Nat), phaseCommInv r →
      phaseCommInv (nextPhaseF fuel r users pick).1 := by
  intro fuel
  induction fuel with
  | zero => intro r users pick h; exact h
  | succ n ih =>
    intro r users pick h
    obtain ⟨rid, ps, dk, cc, pt, cb, bb, sb, di, cpi, ph, mp⟩ := r
    cases ph <;> simp only [nextPhaseF]
    case waiting =>
      exact scanMatch_phaseComm n _ users pick ih h
    case preflop =>
      obtain ⟨hcc, hdk⟩ := h
      apply scanMatch_phaseComm n _ users pick ih
      unfold phaseCommInv
      simp only at hcc hdk ⊢
      obtain ⟨h1, h2⟩ := dealCommunity_len 3 cc dk
      constructor
      · rw [h1]; omega
      · rw [h2]; omega
    case flop =>
      obtain ⟨hcc, hdk⟩ := h
      apply scanMatch_phaseComm n _ users pick ih
      unfold phaseCommInv
      simp only at hcc hdk ⊢
      obtain ⟨h1, h2⟩ := dealCommunity_len 1 cc dk
      constructor
      · rw [h1]; omega
      · rw [h2]; omega
    case turn =>
      obtain ⟨hcc, hdk⟩ := h
      apply scanMatch_phaseComm n _ users pick ih
      unfold phaseCommInv
      simp only at hcc hdk ⊢
      obtain ⟨h1, _h2⟩ := dealCommunity_len 1 cc dk
      rw [h1]
      omega
    case river =>
      apply endGameF_phaseComm _ users pick
      · exact h
      · rfl
    case showdown =>
      exact scanMatch_phaseComm n _ users pick ih h

theorem nextPlayerF_phaseComm (fuel : Nat) (r : Room) (users : Users)
    (pick : Nat) (h : phaseCommInv r) :
    phaseCommInv (nextPlayerF fuel r users pick).1 := by
  unfold nextPlayerF
  cases hs : nextPlayerScan r with
  | some idx => simp only [hs]; exact h
  | none => simp only [hs]; exact nextPhaseF_phaseComm fuel r users pick h

theorem applySwitch_phaseComm (r : Room) (users : Users) (i : Nat)
    (suid : String) (act : Action) (amount : Option Int)
    (h : phaseCommInv r) :
    phaseCommInv (applySwitch r users i suid act amount).1 := by
  unfold applySwitch
  cases hg : r.players.get? i with
  | none => exact h
  | some p =>
    cases act with
    | fold => exact h
    | call => exact h
    | raise => exact h
    | check =>
      dsimp only
      split_ifs with hc
      · exact h
      · exact h
    | allin => exact h

theorem playerActionR_phaseComm (r : Room) (users : Users) (sid suid : String)
    (act : Action) (amt : Option Int) (pick fuel : Nat)
    (h : phaseCommInv r) :
    phaseCommInv (playerActionR r users sid suid act amt pick fuel).1 := by
  unfold playerActionR
  cases hf : r.players.findIdx? (fun p => p.socketId = sid) with
  | none => exact h
  | some i =>
    dsimp only
    by_cases hcpi : (i : Int) ≠ r.currentPlayerIndex
    · rw [if_pos hcpi]; exact h
    · rw [if_neg hcpi]
      exact nextPlayerF_phaseComm fuel _ _ pick
        (applySwitch_phaseComm r users i suid act amt h)

set_option maxRecDepth 8000 in
/-- C8 counterexample: from the reachable two-player hand where both players
go all-in, the cascade deals the full board and settles; the resulting
observable room state has phase `waiting` with 5 community cards, not the
0 cards the claim requires for `waiting` — `endGame` never clears the
board. -/
theorem claim_C8_counterexample :
    (playerActionR
        (playerActionR (startNewGameR baseDeck room2 users2).1
          (startNewGameR baseDeck room2 users2).2 "sB" "B" Action.allin none 0
          8).1
        (playerActionR (startNewGameR baseDeck room2 users2).1
          (startNewGameR baseDeck room2 users2).2 "sB" "B" Action.allin none 0
          8).2 "sA" "A" Action.allin none 0 8).1.phase = Phase.waiting ∧
    ¬ (playerActionR
        (playerActionR (startNewGameR baseDeck room2 users2).1
          (startNewGameR baseDeck room2 users2).2 "sB" "B" Action.allin none 0
          8).1
        (playerActionR (startNewGameR baseDeck room2 users2).1
          (startNewGameR baseDeck room2 users2).2 "sB" "B" Action.allin none 0
          8).2 "sA" "A" Action.allin none 0
          8).1.communityCards.length = 0 ∧
    (playerActionR
        (playerActionR (startNewGameR baseDeck room2 users2).1
          (startNewGameR baseDeck room2 users2).2 "sB" "B" Action.allin none 0
          8).1
        (playerActionR (startNewGameR baseDeck room2 users2).1
          (startNewGameR baseDeck room2 users2).2 "sB" "B" Action.allin none 0
          8).2 "sA" "A" Action.allin none 0
          8).1.communityCards.length = 5 :=
  ⟨by decide, by decide, by decide⟩

/-- C8 amended: the board/phase correspondence that actually holds — 0/3/4/5/5
community cards in preflop/flop/turn/river/showdown — is established by room
creation and hand start (given a full-enough deck) and preserved by every
applied action, phase advance and settlement; but settlement leaves the
5-card board in place, so a room in `waiting` holds either 0 cards (fresh)
or 5 cards (after a settled hand), not always 0. -/
theorem claim_C8_amended :
    (∀ (id : String) (bb : ℚ), phaseCommInv (createGameRoom id bb)) ∧
    (∀ (deck : List Card) (r : Room) (users : Users),
      2 ≤ r.players.length → 2 * r.players.length + 5 ≤ deck.length →
      phaseCommInv (startNewGameR deck r users).1) ∧
    (∀ (r : Room) (users : Users) (sid suid : String) (act : Action)
        (amt : Option Int) (pick fuel : Nat),
      phaseCommInv r →
      phaseCommInv (playerActionR r users sid suid act amt pick fuel).1) ∧
    (∀ (r : Room) (users : Users) (pick : Nat),
      r.communityCards.length = 5 → r.phase = Phase.showdown →
      phaseCommInv (endGameF r users pick).1) := by
  refine ⟨?_, ?_, playerActionR_phaseComm, endGameF_phaseComm⟩
  · intro id bb
    unfold phaseCommInv createGameRoom
    simp
  · intro deck r users hN hdeck
    rw [startNewGameR_def deck r users (by omega)]
    unfold phaseCommInv
    simp only
    constructor
    · rfl
    · rw [dealPass_deckLen, dealPass_deckLen, dealPass_length,
        postBlindsAux_length]
      omega

set_option maxRecDepth 8000 in
/-- Witness for C8 amended: the hand-start clause at the concrete two-player
room with the full 52-card deck, and the action clause across B's all-in. -/
theorem claim_C8_amended_witness :
    (2 ≤ room2.players.length ∧ 2 * room2.players.length + 5 ≤ baseDeck.length ∧
     phaseCommInv (startNewGameR baseDeck room2 users2).1) ∧
    phaseCommInv (playerActionR (startNewGameR baseDeck room2 users2).1
      (startNewGameR baseDeck room2 users2).2 "sB" "B" Action.allin none 0
      8).1 :=
  ⟨⟨by decide, by decide,
    claim_C8_amended.2.1 baseDeck room2 users2 (by decide) (by decide)⟩,
   claim_C8_amended.2.2.1 (startNewGameR baseDeck room2 users2).1
     (startNewGameR baseDeck room2 users2).2 "sB" "B" Action.allin none 0 8
     (claim_C8_amended.2.1 baseDeck room2 users2 (by decide) (by decide))⟩

/-! ### Claim C9 -/

/-- C9 counterexample: `createGameRoom` does not truncate — for bigBlind 3
the small blind is exactly 3/2 (JS float division is exact on halves), not
the truncated quotient 1 the claim states. -/
theorem claim_C9_counterexample :
    (createGameRoom "r" 3).smallBlind = 3 / 2 ∧
    ¬ (createGameRoom "r" 3).smallBlind = 1 :=
  ⟨by decide, by decide⟩

/-- C9 amended: `createGameRoom` initializes the room in phase `waiting`
with `smallBlind` equal to exactly half of `bigBlind` — a non-integer for
odd bigBlind values — with no truncation. -/
theorem claim_C9_amended (id : String) (bb : ℚ) :
    (createGameRoom id bb).phase = Phase.waiting ∧
    (createGameRoom id bb).smallBlind = bb / 2 ∧
    2 * (createGameRoom id bb).smallBlind = bb := by
  refine ⟨rfl, rfl, ?_⟩
  show 2 * (bb / 2) = bb
  ring

/-! ### Claim C10 -/

/-- C10: the minimum-buy-in check of `join-room` uses the bigBlind carried
in the request, not the stored bigBlind of the existing room: u, whose 500
chips are below 10 × the room's bigBlind of 100, is seated by requesting
bigBlind 10, while v, whose 1500 chips satisfy the room's own buy-in, is
rejected with the insufficient-chips error by requesting bigBlind 1000. -/
theorem claim_C10_join_buyin :
    (joinRoom roomsBig usersJoin "u" "sU" "big" 10).1 = JoinResult.joined ∧
    ((findRoom (joinRoom roomsBig usersJoin "u" "sU" "big" 10).2 "big").map
      (fun room => room.players.map Player.userId)) = some ["u"] ∧
    (getUserChips usersJoin "u" = some 500 ∧ (500 : ℚ) < 10 * 100) ∧
    (joinRoom roomsBig usersJoin "v" "sV" "big" 1000).1 =
      JoinResult.errChips ∧
    (getUserChips usersJoin "v" = some 1500 ∧ (10 * 100 : ℚ) ≤ 1500) :=
  ⟨by decide, by decide, ⟨by decide, by decide⟩, by decide,
   ⟨by decide, by decide⟩⟩

end Poker
